import Mathlib

/-!
Verification development for the ripc compiler core: a shallow embedding of
the lexer (src/lex.rs), the whitespace-filtering token buffer and the
precedence-climbing parser (src/parse.rs), the span infrastructure
(src/span.rs) and the assembly code generator (src/codegen.rs), together
with theorems settling the specification claims about them.

Conventions of the embedding:
- Rust `usize` values (span offsets, variable indices) are Lean `Nat`;
  the one place where the machine width matters (`str::parse::<usize>`,
  which fails above 2^64 - 1) is modelled with an explicit bound.
- The source text is a `List Char`; the lexer state keeps the not yet
  consumed suffix `rest` together with the span counters, mirroring the
  `Chars` iterator plus `span` fields of `struct Lexer`.
- Fallible operations return `Except`; a Rust panic (`unwrap`,
  `unimplemented!`) is modelled by an `Option` layer or by a dedicated
  `panic` outcome, so that panicking paths are distinguishable from
  ordinary results.
-/

/-- Byte-offset span, from src/span.rs `struct Span { start, end }`.
The Rust field `end` is named `stop` here because `end` is a Lean keyword. -/
structure Span where
  start : Nat
  stop : Nat
deriving DecidableEq, Repr

/-- src/span.rs: `pub const EOF: Span = Span { start: 0, end: 0 }`. -/
def Span.EOF : Span := ⟨0, 0⟩

/-- src/span.rs: `fn range(&self) -> Option<Range<usize>>` —
`None` exactly when the span is the EOF sentinel. -/
def Span.range (s : Span) : Option (Nat × Nat) :=
  if s = Span.EOF then none else some (s.start, s.stop)

/-- src/span.rs: `impl Add for Span` — `Span::new(self.start..rhs.end)`. -/
instance : Add Span := ⟨fun a b => ⟨a.start, b.stop⟩⟩

/-- src/span.rs `WithSpan<T>` is flattened into explicit span arguments of
the AST constructors below; kept here only for documentation parity. -/
structure WithSpan (α : Type) where
  value : α
  span : Span
deriving DecidableEq, Repr

/-- Token kinds. The given src/lex.rs `enum TokenKind` declares
`Add, Sub, Num, Str, Whitespace, Eof`; the variants
`Mul, Div, Assign, Semi, OpenParen, CloseParen, Ident` are required by the
callers in src/parse.rs (`TokenKind::Mul` … `TokenKind::Ident`).
Modelled from the spec: the `mul, div, assign, semi, openParen, closeParen,
ident` variants ("Single-character tokens for + - * / = ; ( )", "identifier
(raw slice)"), which the lex.rs snapshot under src/ is missing. -/
inductive TokenKind where
  | add
  | sub
  | mul
  | div
  | assign
  | semi
  | openParen
  | closeParen
  | num (n : Nat)
  | str (s : String)
  | ident (s : String)
  | whitespace
  | eofTok
deriving DecidableEq, Repr

/-- src/lex.rs `struct Token { kind, span }`. -/
structure Token where
  kind : TokenKind
  span : Span
deriving DecidableEq, Repr

/-- src/lex.rs `enum ErrorKind { UnexpectedEof, InvalidCharacter(char) }`. -/
inductive LexErrorKind where
  | unexpectedEof
  | invalidCharacter (c : Char)
deriving DecidableEq, Repr

/-- src/lex.rs `struct Error { kind, span }`. -/
structure LexError where
  kind : LexErrorKind
  span : Span
deriving DecidableEq, Repr

/-- One item of the lexer's output stream. `tok` and `err` are the
`Ok`/`Err` cases of `Iterator::next`; `panicOut` marks the divergence of
`self.slice().parse().unwrap()` when the digit run overflows `usize`. -/
inductive LexOut where
  | tok (t : Token)
  | err (e : LexError)
  | panicOut
deriving DecidableEq, Repr

/-- State of src/lex.rs `struct Lexer`: `rest` is the unconsumed suffix of
the source (the `chars` iterator position), `start`/`stop` are the `span`
fields, `eof` the `eof` flag. `chomp` advances `stop` by one per char. -/
structure LexState where
  rest : List Char
  start : Nat
  stop : Nat
  eof : Bool
deriving DecidableEq, Repr

/-- src/lex.rs `Lexer::new`. -/
def lexInit (src : List Char) : LexState := ⟨src, 0, 0, false⟩

/-- Rust `char::is_ascii_digit`. -/
def isAsciiDigit (c : Char) : Bool := '0' ≤ c && c ≤ '9'

/-- Rust `char::is_ascii_whitespace`: space, tab, newline, form feed, CR. -/
def isAsciiWhitespace (c : Char) : Bool :=
  c = ' ' || c = '\t' || c = '\n' || c = '\x0c' || c = '\r'

/-- Modelled from the spec: first character of an identifier ("An
identifier is a run of non-reserved, non-whitespace characters …", narrowed
to letters and underscore so that `compiling "#" must fail with an
invalid-character error` also holds, as §8 of the spec requires). -/
def isIdentStart (c : Char) : Bool := c.isAlpha || c = '_'

/-- Modelled from the spec: subsequent identifier characters. -/
def isIdentChar (c : Char) : Bool := c.isAlphanum || c = '_'

/-- Semantics of `str::parse::<usize>` on a digit run (the `slice()` of
the numeric branch): its numeric value. -/
def digitsToNat (ds : List Char) : Nat :=
  ds.foldl (fun a c => 10 * a + (c.toNat - '0'.toNat)) 0

/-- Value of `usize::MAX` on the x86-64 target the code generator emits
for. -/
def usizeMax : Nat := 2 ^ 64 - 1

/-- Common tail of the `Ok` arms of `Lexer::next`: build the token with the
current span and set `eof` when the input is exhausted
(`if self.peek().is_none() { self.eof = true; }`). -/
def finishTok (k : TokenKind) (rest : List Char) (a b : Nat) (eof0 : Bool) :
    Option (LexOut × LexState) :=
  some (.tok ⟨k, ⟨a, b⟩⟩, ⟨rest, a, b, eof0 || rest.isEmpty⟩)

/-- The `'"' => loop { … }` arm of src/lex.rs `Lexer::next`: scan a string
literal. `acc` accumulates the chars between the quotes (the code's
`slice()[1..len-1]`), `a` is the span start (position of the opening
quote), `b` the current span end, `eof0` the incoming eof flag. A backslash
immediately followed by `"` or `\` is consumed together with the escaped
char without interpretation; input end yields `UnexpectedEof` anchored at
`a`. -/
def lexStr (rest : List Char) (acc : List Char) (a b : Nat) (eof0 : Bool) :
    Option (LexOut × LexState) :=
  match rest with
  | [] => some (.err ⟨.unexpectedEof, ⟨a, b⟩⟩, ⟨[], a, b, true⟩)
  | '"' :: rs => finishTok (.str (String.mk acc)) rs a (b + 1) eof0
  | '\\' :: c2 :: rs =>
    if c2 = '\\' || c2 = '"' then
      lexStr rs (acc ++ ['\\', c2]) a (b + 2) eof0
    else
      lexStr (c2 :: rs) (acc ++ ['\\']) a (b + 1) eof0
  | c :: rs => lexStr rs (acc ++ [c]) a (b + 1) eof0

/-- src/lex.rs `impl Iterator for Lexer { fn next }`. Returns `none` when
the input is exhausted (`self.eof = true; None`). Chomp-runs
(`chomp_while`) are expressed with `List.takeWhile`/`List.drop`.
Modelled from the spec: the `* / = ; ( )` single-character arms and the
identifier arm, which the src/ snapshot of lex.rs lacks although
src/parse.rs consumes the corresponding token kinds. -/
def rawNext (st : LexState) : Option (LexOut × LexState) :=
  -- `self.reset()`: span.start := span.end; the span below therefore
  -- starts at `st.stop`.
  let a := st.stop
  match st.rest with
  | [] => none
  | c :: rs =>
    if c = '+' then finishTok .add rs a (a + 1) st.eof
    else if c = '-' then finishTok .sub rs a (a + 1) st.eof
    else if c = '*' then finishTok .mul rs a (a + 1) st.eof
    else if c = '/' then finishTok .div rs a (a + 1) st.eof
    else if c = '=' then finishTok .assign rs a (a + 1) st.eof
    else if c = ';' then finishTok .semi rs a (a + 1) st.eof
    else if c = '(' then finishTok .openParen rs a (a + 1) st.eof
    else if c = ')' then finishTok .closeParen rs a (a + 1) st.eof
    else if isAsciiDigit c then
      -- `self.chomp_while(char::is_ascii_digit); Num(self.slice().parse().unwrap())`
      let ds := rs.takeWhile isAsciiDigit
      let n := digitsToNat (c :: ds)
      if n ≤ usizeMax then
        finishTok (.num n) (rs.drop ds.length) a (a + 1 + ds.length) st.eof
      else
        -- `.parse().unwrap()` panics when the literal overflows `usize`.
        some (.panicOut, ⟨rs.drop ds.length, a, a + 1 + ds.length, st.eof⟩)
    else if isAsciiWhitespace c then
      let ws := rs.takeWhile isAsciiWhitespace
      finishTok .whitespace (rs.drop ws.length) a (a + 1 + ws.length) st.eof
    else if c = '"' then
      lexStr rs [] a (a + 1) st.eof
    else if isIdentStart c then
      let id := rs.takeWhile isIdentChar
      finishTok (.ident (String.mk (c :: id))) (rs.drop id.length) a
        (a + 1 + id.length) st.eof
    else
      some (.err ⟨.invalidCharacter c, ⟨a, a + 1⟩⟩, ⟨rs, a, a + 1, st.eof⟩)

example : rawNext (lexInit ['+']) =
    some (.tok ⟨.add, ⟨0, 1⟩⟩, ⟨[], 0, 1, true⟩) := by decide

example : rawNext (lexInit ['1', '2', '+']) =
    some (.tok ⟨.num 12, ⟨0, 2⟩⟩, ⟨['+'], 0, 2, false⟩) := by decide

example : rawNext (lexInit ['"', 'a', '"', 'x']) =
    some (.tok ⟨.str "a", ⟨0, 3⟩⟩, ⟨['x'], 0, 3, false⟩) := by decide

example : rawNext (lexInit ['"', 'a', 'b']) =
    some (.err ⟨.unexpectedEof, ⟨0, 3⟩⟩, ⟨[], 0, 3, true⟩) := by decide

example : rawNext (lexInit ['#']) =
    some (.err ⟨.invalidCharacter '#', ⟨0, 1⟩⟩, ⟨[], 0, 1, false⟩) := by decide

example : rawNext (lexInit ['"', '\\', '"', '"']) =
    some (.tok ⟨.str "\\\"", ⟨0, 4⟩⟩, ⟨[], 0, 4, true⟩) := by decide

/-- Span end carried by an output item (0 for the span-less panic). -/
def outStop : LexOut → Nat
  | .tok t => t.span.stop
  | .err e => e.span.stop
  | .panicOut => 0

theorem length_takeWhile_le (p : Char → Bool) (l : List Char) :
    (l.takeWhile p).length ≤ l.length := by
  induction l with
  | nil => simp [List.takeWhile]
  | cons c cs ih =>
    by_cases h : p c
    · simp [List.takeWhile, h]; omega
    · simp [List.takeWhile, h]


theorem finishTok_inv {k : TokenKind} {rest : List Char} {a b : Nat}
    {e : Bool} {o : LexOut} {st2 : LexState}
    (h : finishTok k rest a b e = some (o, st2)) :
    st2.rest = rest ∧ st2.stop = b ∧ outStop o = b := by
  simp only [finishTok, Option.some.injEq, Prod.mk.injEq] at h
  obtain ⟨ho, hst⟩ := h
  subst ho; subst hst
  simp [outStop]

theorem lexStr_inv :
    ∀ (rs acc : List Char) (a b : Nat) (e : Bool) (o : LexOut) (st2 : LexState),
      lexStr rs acc a b e = some (o, st2) →
      st2.rest.length ≤ rs.length ∧
        st2.stop + st2.rest.length = b + rs.length ∧ outStop o = st2.stop := by
  intro rs acc a b e
  induction rs, acc, a, b, e using lexStr.induct with
  | case1 acc a b e =>
    intro o st2 h
    simp only [lexStr, Option.some.injEq, Prod.mk.injEq] at h
    obtain ⟨ho, hst⟩ := h
    subst ho; subst hst
    simp [outStop]
  | case2 rs acc a b e =>
    intro o st2 h
    simp only [lexStr] at h
    obtain ⟨h1, h2, h3⟩ := finishTok_inv h
    simp [h1, h2, h3]
    omega
  | case3 c2 rs acc a b e hc ih =>
    intro o st2 h
    simp only [lexStr, hc, if_true] at h
    obtain ⟨h1, h2, h3⟩ := ih o st2 h
    refine ⟨by simpa using Nat.le_succ_of_le (Nat.le_succ_of_le h1), by simp at h2 ⊢; omega, h3⟩
  | case4 c2 rs acc a b e hc ih =>
    intro o st2 h
    simp only [lexStr, hc, if_false] at h
    obtain ⟨h1, h2, h3⟩ := ih o st2 h
    refine ⟨by simp at h1 ⊢; omega, by simp at h2 ⊢; omega, h3⟩
  | case5 c rs acc a b e hq hb ih =>
    intro o st2 h
    simp only [lexStr] at h
    obtain ⟨h1, h2, h3⟩ := ih o st2 h
    refine ⟨Nat.le_succ_of_le h1, by simp at h2 ⊢; omega, h3⟩

theorem finishTok_leaf {k : TokenKind} {rest0 : List Char} {s0 b : Nat}
    {e : Bool} {o : LexOut} {st2 : LexState} {c : Char} {rs : List Char}
    (h : finishTok k rest0 s0 b e = some (o, st2))
    (hlen : rest0.length ≤ rs.length)
    (hb2 : b + rest0.length = s0 + 1 + rs.length) :
    st2.rest.length < (c :: rs).length ∧
      st2.stop + st2.rest.length = s0 + (c :: rs).length ∧
      outStop o ≤ st2.stop := by
  obtain ⟨h1, h2, h3⟩ := finishTok_inv h
  rw [h1, h2, h3]
  simp only [List.length_cons]
  omega

/-- Every successful call of `Lexer::next` consumes at least one character,
preserves the running total `span.end + remaining`, and the returned item's
span ends at (or, for the panic, below) the new cursor. This is the engine
behind the termination and span-boundedness claims. -/
theorem rawNext_inv {st : LexState} {o : LexOut} {st2 : LexState}
    (h : rawNext st = some (o, st2)) :
    st2.rest.length < st.rest.length ∧
      st2.stop + st2.rest.length = st.stop + st.rest.length ∧
      outStop o ≤ st2.stop := by
  match hr : st.rest with
  | [] => simp [rawNext, hr] at h
  | c :: rs =>
    rw [rawNext] at h
    simp only [hr] at h
    have hdl := length_takeWhile_le isAsciiDigit rs
    have hwl := length_takeWhile_le isAsciiWhitespace rs
    have hil := length_takeWhile_le isIdentChar rs
    by_cases e1 : c = '+'
    · rw [if_pos e1] at h
      exact finishTok_leaf h (Nat.le_refl _) (by omega)
    rw [if_neg e1] at h
    by_cases e2 : c = '-'
    · rw [if_pos e2] at h
      exact finishTok_leaf h (Nat.le_refl _) (by omega)
    rw [if_neg e2] at h
    by_cases e3 : c = '*'
    · rw [if_pos e3] at h
      exact finishTok_leaf h (Nat.le_refl _) (by omega)
    rw [if_neg e3] at h
    by_cases e4 : c = '/'
    · rw [if_pos e4] at h
      exact finishTok_leaf h (Nat.le_refl _) (by omega)
    rw [if_neg e4] at h
    by_cases e5 : c = '='
    · rw [if_pos e5] at h
      exact finishTok_leaf h (Nat.le_refl _) (by omega)
    rw [if_neg e5] at h
    by_cases e6 : c = ';'
    · rw [if_pos e6] at h
      exact finishTok_leaf h (Nat.le_refl _) (by omega)
    rw [if_neg e6] at h
    by_cases e7 : c = '('
    · rw [if_pos e7] at h
      exact finishTok_leaf h (Nat.le_refl _) (by omega)
    rw [if_neg e7] at h
    by_cases e8 : c = ')'
    · rw [if_pos e8] at h
      exact finishTok_leaf h (Nat.le_refl _) (by omega)
    rw [if_neg e8] at h
    by_cases e9 : isAsciiDigit c = true
    · rw [if_pos e9] at h
      by_cases e10 : digitsToNat (c :: rs.takeWhile isAsciiDigit) ≤ usizeMax
      · rw [if_pos e10] at h
        exact finishTok_leaf h (by simp) (by simp [List.length_drop]; omega)
      · rw [if_neg e10] at h
        simp only [Option.some.injEq, Prod.mk.injEq] at h
        obtain ⟨ho, hst⟩ := h
        subst ho; subst hst
        simp only [outStop, List.length_cons, List.length_drop]
        omega
    rw [if_neg e9] at h
    by_cases e11 : isAsciiWhitespace c = true
    · rw [if_pos e11] at h
      exact finishTok_leaf h (by simp) (by simp [List.length_drop]; omega)
    rw [if_neg e11] at h
    by_cases e12 : c = '"'
    · rw [if_pos e12] at h
      obtain ⟨h1, h2, h3⟩ := lexStr_inv rs [] st.stop (st.stop + 1) st.eof o st2 h
      simp only [List.length_cons]
      omega
    rw [if_neg e12] at h
    by_cases e13 : isIdentStart c = true
    · rw [if_pos e13] at h
      exact finishTok_leaf h (by simp) (by simp [List.length_drop]; omega)
    rw [if_neg e13] at h
    simp only [Option.some.injEq, Prod.mk.injEq] at h
    obtain ⟨ho, hst⟩ := h
    subst ho; subst hst
    simp only [outStop, List.length_cons]
    omega

/-- Full output stream of the lexer: repeatedly call `Iterator::next` until
it returns `None` (input exhausted), collecting every item. -/
def rawDrain (st : LexState) : List LexOut :=
  match h : rawNext st with
  | none => []
  | some (o, st2) => o :: rawDrain st2
termination_by st.rest.length
decreasing_by exact (rawNext_inv h).1

/-- The lexer's output as its consumer sees it: tokens until the input is
exhausted, stopping at the first error (the driver aborts on the first
error) or panic (the process dies). -/
def lexTokens (st : LexState) : List LexOut :=
  match h : rawNext st with
  | none => []
  | some (.tok t, st2) => LexOut.tok t :: lexTokens st2
  | some (.err e, _) => [LexOut.err e]
  | some (.panicOut, _) => [LexOut.panicOut]
termination_by st.rest.length
decreasing_by exact (rawNext_inv h).1

/-- Whether a stream item is an `Ok` whitespace token — the items that
src/parse.rs `Tokens::peek`/`Tokens::next` skip with their
`Some(Ok(Token { kind: TokenKind::Whitespace, .. })) => continue` arms. -/
def isWsOut : LexOut → Bool
  | .tok ⟨.whitespace, _⟩ => true
  | _ => false

/-- State of src/parse.rs `struct Tokens`: the wrapped lexer plus the
one-item lookahead slot `peeked : Option<Option<Result<Token, Error>>>`. -/
structure TokState where
  lex : LexState
  peeked : Option (Option LexOut)
deriving DecidableEq, Repr

/-- The shared pull loop of `Tokens::peek` and `Tokens::next`: draw from
the lexer, skipping whitespace tokens, until a non-whitespace item or the
end of the stream. -/
def pullSkip (lex : LexState) : Option LexOut × LexState :=
  match h : rawNext lex with
  | none => (none, lex)
  | some (o, lex2) => if isWsOut o then pullSkip lex2 else (some o, lex2)
termination_by lex.rest.length
decreasing_by exact (rawNext_inv h).1

theorem pullSkip_none {lex : LexState} (hraw : rawNext lex = none) :
    pullSkip lex = (none, lex) := by
  rw [pullSkip]
  split
  · rfl
  case _ o lex2 heq => rw [hraw] at heq; cases heq

theorem pullSkip_cons {lex : LexState} {o : LexOut} {lex2 : LexState}
    (hraw : rawNext lex = some (o, lex2)) :
    pullSkip lex = if isWsOut o then pullSkip lex2 else (some o, lex2) := by
  rw [pullSkip]
  split
  case _ heq => rw [hraw] at heq; cases heq
  case _ o2 lex3 heq =>
    rw [hraw] at heq
    injection heq with heq2
    injection heq2 with ho hl
    subst ho; subst hl
    rfl

theorem pullSkip_some :
    ∀ (lex : LexState) (o : LexOut) (lex2 : LexState),
      pullSkip lex = (some o, lex2) →
      lex2.rest.length < lex.rest.length ∧ isWsOut o = false := by
  intro lex
  induction lex using pullSkip.induct with
  | case1 x hraw =>
    intro o lex2 h
    rw [pullSkip_none hraw] at h
    simp at h
  | case2 x o2 st2 hraw hw ih =>
    intro o lex2 h
    rw [pullSkip_cons hraw, if_pos hw] at h
    obtain ⟨h1, h2⟩ := ih o lex2 h
    exact ⟨Nat.lt_trans h1 (rawNext_inv hraw).1, h2⟩
  | case3 x o2 st2 hraw hnw =>
    intro o lex2 h
    rw [pullSkip_cons hraw, if_neg hnw] at h
    simp only [Prod.mk.injEq, Option.some.injEq] at h
    obtain ⟨h1, h2⟩ := h
    subst h1; subst h2
    exact ⟨(rawNext_inv hraw).1, by simpa using hnw⟩

/-- src/parse.rs `Tokens::next` (the `Iterator` impl): take the peeked
item if present, else pull from the lexer; skip whitespace in both cases. -/
def toksNext (ts : TokState) : Option LexOut × TokState :=
  match ts.peeked with
  | some v =>
    match v with
    | some o =>
      if isWsOut o then
        (fun p => (p.1, ⟨p.2, none⟩)) (pullSkip ts.lex)
      else (some o, ⟨ts.lex, none⟩)
    | none => (none, ⟨ts.lex, none⟩)
  | none => (fun p => (p.1, ⟨p.2, none⟩)) (pullSkip ts.lex)

/-- src/parse.rs `Tokens::peek`: return the peeked item if the slot is
full, else pull (skipping whitespace) and store the item in the slot. -/
def toksPeek (ts : TokState) : Option LexOut × TokState :=
  match ts.peeked with
  | some v => (v, ts)
  | none =>
    (fun p => (p.1, ⟨p.2, some p.1⟩)) (pullSkip ts.lex)

/-- Termination measure of draining the token buffer: two steps per
unconsumed source character plus one for a full lookahead slot. -/
def tsMeasure (ts : TokState) : Nat :=
  2 * ts.lex.rest.length + (if ts.peeked.isSome then 1 else 0)

theorem toksNext_dec {ts : TokState} {o : LexOut} {ts2 : TokState}
    (h : toksNext ts = (some o, ts2)) : tsMeasure ts2 < tsMeasure ts := by
  rw [toksNext] at h
  match hpk : ts.peeked with
  | some (some o2) =>
    rw [hpk] at h
    simp only at h
    split at h
    · match hp : pullSkip ts.lex with
      | (some o3, lex3) =>
        rw [hp] at h
        simp only [Prod.mk.injEq, Option.some.injEq] at h
        obtain ⟨h1, h2⟩ := h
        subst h1; subst h2
        have := (pullSkip_some ts.lex o3 lex3 hp).1
        simp [tsMeasure, hpk]
        omega
      | (none, lex3) => rw [hp] at h; simp at h
    · simp only [Prod.mk.injEq, Option.some.injEq] at h
      obtain ⟨h1, h2⟩ := h
      subst h1; subst h2
      simp [tsMeasure, hpk]
  | some none =>
    rw [hpk] at h
    simp at h
  | none =>
    rw [hpk] at h
    simp only at h
    match hp : pullSkip ts.lex with
    | (some o3, lex3) =>
      rw [hp] at h
      simp only [Prod.mk.injEq, Option.some.injEq] at h
      obtain ⟨h1, h2⟩ := h
      subst h1; subst h2
      have := (pullSkip_some ts.lex o3 lex3 hp).1
      simp [tsMeasure, hpk]
      omega
    | (none, lex3) => rw [hp] at h; simp at h

/-- Drain the token buffer through `Tokens::next` until it reports the end
of the stream. -/
def tokensDrain (ts : TokState) : List LexOut :=
  match h : toksNext ts with
  | (none, _) => []
  | (some o, ts2) => o :: tokensDrain ts2
termination_by tsMeasure ts
decreasing_by exact toksNext_dec h

theorem rawDrain_none {lex : LexState} (hraw : rawNext lex = none) :
    rawDrain lex = [] := by
  rw [rawDrain]
  split
  · rfl
  case _ o lex2 heq => rw [hraw] at heq; cases heq

theorem rawDrain_cons {lex : LexState} {o : LexOut} {lex2 : LexState}
    (hraw : rawNext lex = some (o, lex2)) :
    rawDrain lex = o :: rawDrain lex2 := by
  rw [rawDrain]
  split
  case _ heq => rw [hraw] at heq; cases heq
  case _ o2 lex3 heq =>
    rw [hraw] at heq
    injection heq with heq2
    injection heq2 with ho hl
    subst ho; subst hl
    rfl

theorem tokensDrain_none {ts : TokState} {x : TokState}
    (h : toksNext ts = (none, x)) : tokensDrain ts = [] := by
  rw [tokensDrain]
  split
  · rfl
  case _ o ts2 heq => rw [h] at heq; cases heq

theorem tokensDrain_some {ts : TokState} {o : LexOut} {ts2 : TokState}
    (h : toksNext ts = (some o, ts2)) :
    tokensDrain ts = o :: tokensDrain ts2 := by
  rw [tokensDrain]
  split
  case _ x heq => rw [h] at heq; cases heq
  case _ o2 ts3 heq =>
    rw [h] at heq
    injection heq with ho hl
    injection ho with ho2
    subst ho2; subst hl
    rfl

theorem toksNext_noPeek (lex : LexState) :
    toksNext ⟨lex, none⟩ = ((pullSkip lex).1, ⟨(pullSkip lex).2, none⟩) := rfl

/-- Core of the token-buffer equivalence: draining the buffer from a state
with an empty lookahead slot yields exactly the raw lexer stream with the
whitespace tokens deleted. -/
theorem tokensDrain_filter :
    ∀ (n : Nat) (lex : LexState), lex.rest.length ≤ n →
      tokensDrain ⟨lex, none⟩ = (rawDrain lex).filter (fun o => !isWsOut o) := by
  intro n
  induction n with
  | zero =>
    intro lex hle
    have hnil : lex.rest = [] := List.length_eq_zero.mp (Nat.le_zero.mp hle)
    have hraw : rawNext lex = none := by rw [rawNext, hnil]
    rw [rawDrain_none hraw,
      tokensDrain_none (by rw [toksNext_noPeek, pullSkip_none hraw])]
    rfl
  | succ n ih =>
    intro lex hle
    match hraw : rawNext lex with
    | none =>
      rw [rawDrain_none hraw,
        tokensDrain_none (by rw [toksNext_noPeek, pullSkip_none hraw])]
      rfl
    | some (o, lex2) =>
      have hlt := (rawNext_inv hraw).1
      rw [rawDrain_cons hraw]
      by_cases hw : isWsOut o
      · have hp : pullSkip lex = pullSkip lex2 := by
          rw [pullSkip_cons hraw, if_pos hw]
        have hnx : toksNext ⟨lex, none⟩ = toksNext ⟨lex2, none⟩ := by
          rw [toksNext_noPeek, toksNext_noPeek, hp]
        have hdr : tokensDrain ⟨lex, none⟩ = tokensDrain ⟨lex2, none⟩ := by
          match hv : toksNext ⟨lex2, none⟩ with
          | (none, x) =>
            rw [tokensDrain_none (hnx.trans hv), tokensDrain_none hv]
          | (some o2, ts3) =>
            rw [tokensDrain_some (hnx.trans hv), tokensDrain_some hv]
        rw [hdr, ih lex2 (by omega)]
        simp [List.filter_cons, hw]
      · have hp : pullSkip lex = (some o, lex2) := by
          rw [pullSkip_cons hraw, if_neg hw]
        have ht : toksNext ⟨lex, none⟩ = (some o, ⟨lex2, none⟩) := by
          rw [toksNext_noPeek, hp]
        rw [tokensDrain_some ht, ih lex2 (by omega)]
        simp [List.filter_cons, hw]

/-- UTF-8 byte length of one character (Rust `char::len_utf8`). -/
def charUtf8Size (c : Char) : Nat :=
  if c.toNat < 0x80 then 1
  else if c.toNat < 0x800 then 2
  else if c.toNat < 0x10000 then 3
  else 4

/-- Byte length of the UTF-8 encoding of a text (Rust `str::len`). -/
def utf8Len (l : List Char) : Nat :=
  match l with
  | [] => 0
  | c :: rest => charUtf8Size c + utf8Len rest

/-- The byte offsets of the UTF-8 encoding of `l` that lie on a character
boundary (including 0 and the total length). -/
def utf8Boundaries : List Char → List Nat
  | [] => [0]
  | c :: rest => 0 :: (utf8Boundaries rest).map (fun n => n + charUtf8Size c)

/-- Whether byte offset `n` is a character boundary of the UTF-8 encoding
of `l` (Rust `str::is_char_boundary`). -/
def utf8IsBoundary (l : List Char) (n : Nat) : Bool :=
  (utf8Boundaries l).contains n

theorem one_le_charUtf8Size (c : Char) : 1 ≤ charUtf8Size c := by
  unfold charUtf8Size
  split_ifs <;> omega

theorem length_le_utf8Len (l : List Char) : l.length ≤ utf8Len l := by
  induction l with
  | nil => simp [utf8Len]
  | cons c cs ih =>
    have := one_le_charUtf8Size c
    simp only [List.length_cons, utf8Len]
    omega

theorem lexTokens_none {lex : LexState} (hraw : rawNext lex = none) :
    lexTokens lex = [] := by
  rw [lexTokens]
  split
  · rfl
  all_goals (rename_i heq; rw [hraw] at heq; cases heq)

theorem lexTokens_tok {lex : LexState} {t : Token} {lex2 : LexState}
    (hraw : rawNext lex = some (.tok t, lex2)) :
    lexTokens lex = LexOut.tok t :: lexTokens lex2 := by
  rw [lexTokens]
  split
  case _ heq => rw [hraw] at heq; cases heq
  case _ t2 lex3 heq =>
    rw [hraw] at heq
    injection heq with heq2
    injection heq2 with ho hl
    injection ho with ht
    subst ht; subst hl
    rfl
  case _ e2 lex3 heq =>
    rw [hraw] at heq
    injection heq with heq2
    injection heq2 with ho hl
    cases ho
  case _ lex3 heq =>
    rw [hraw] at heq
    injection heq with heq2
    injection heq2 with ho hl
    cases ho

theorem lexTokens_err {lex : LexState} {e : LexError} {lex2 : LexState}
    (hraw : rawNext lex = some (.err e, lex2)) :
    lexTokens lex = [LexOut.err e] := by
  rw [lexTokens]
  split
  case _ heq => rw [hraw] at heq; cases heq
  case _ t2 lex3 heq =>
    rw [hraw] at heq
    injection heq with heq2
    injection heq2 with ho hl
    cases ho
  case _ e2 lex3 heq =>
    rw [hraw] at heq
    injection heq with heq2
    injection heq2 with ho hl
    injection ho with ht
    subst ht
    rfl
  case _ lex3 heq =>
    rw [hraw] at heq
    injection heq with heq2
    injection heq2 with ho hl
    cases ho

theorem lexTokens_panic {lex : LexState} {lex2 : LexState}
    (hraw : rawNext lex = some (.panicOut, lex2)) :
    lexTokens lex = [LexOut.panicOut] := by
  rw [lexTokens]
  split
  case _ heq => rw [hraw] at heq; cases heq
  case _ t2 lex3 heq =>
    rw [hraw] at heq
    injection heq with heq2
    injection heq2 with ho hl
    cases ho
  case _ e2 lex3 heq =>
    rw [hraw] at heq
    injection heq with heq2
    injection heq2 with ho hl
    cases ho
  case _ lex3 heq => rfl

/-- Invariant of the consumed lexer stream: every item's span ends within
`span.end + remaining characters`, and at most one item is produced per
remaining character. -/
theorem lexTokens_inv :
    ∀ (n : Nat) (st : LexState), st.rest.length ≤ n →
      (∀ o ∈ lexTokens st, outStop o ≤ st.stop + st.rest.length) ∧
        (lexTokens st).length ≤ st.rest.length := by
  intro n
  induction n with
  | zero =>
    intro st hle
    have hnil : st.rest = [] := List.length_eq_zero.mp (Nat.le_zero.mp hle)
    have hraw : rawNext st = none := by rw [rawNext, hnil]
    rw [lexTokens_none hraw]
    simp
  | succ n ih =>
    intro st hle
    match hraw : rawNext st with
    | none =>
      rw [lexTokens_none hraw]
      simp
    | some (.tok t, st2) =>
      obtain ⟨h1, h2, h3⟩ := rawNext_inv hraw
      obtain ⟨ih1, ih2⟩ := ih st2 (by omega)
      rw [lexTokens_tok hraw]
      constructor
      · intro o ho
        rcases List.mem_cons.mp ho with h | h
        · subst h
          simp only [outStop] at h3 ⊢
          omega
        · have := ih1 o h
          omega
      · simp only [List.length_cons]
        omega
    | some (.err e, st2) =>
      obtain ⟨h1, h2, h3⟩ := rawNext_inv hraw
      rw [lexTokens_err hraw]
      constructor
      · intro o ho
        rcases List.mem_singleton.mp ho with h
        subst h
        simp only [outStop] at h3 ⊢
        omega
      · simp only [List.length_singleton]
        omega
    | some (.panicOut, st2) =>
      obtain ⟨h1, h2, h3⟩ := rawNext_inv hraw
      rw [lexTokens_panic hraw]
      constructor
      · intro o ho
        rcases List.mem_singleton.mp ho with h
        subst h
        simp only [outStop]
        omega
      · simp only [List.length_singleton]
        omega

/-- If the string-literal loop produces an error it is `UnexpectedEof`,
its span starts where string scanning started (`a`, the opening quote) and
ends after all remaining input has been consumed. -/
theorem lexStr_err :
    ∀ (rs acc : List Char) (a b : Nat) (e : Bool) (er : LexError)
      (st2 : LexState),
      lexStr rs acc a b e = some (.err er, st2) →
      er = ⟨.unexpectedEof, ⟨a, b + rs.length⟩⟩ := by
  intro rs acc a b e
  induction rs, acc, a, b, e using lexStr.induct with
  | case1 acc a b e =>
    intro er st2 h
    simp only [lexStr, Option.some.injEq, Prod.mk.injEq] at h
    obtain ⟨ho, hst⟩ := h
    injection ho with ho2
    subst ho2
    rfl
  | case2 rs acc a b e =>
    intro er st2 h
    simp only [lexStr, finishTok, Option.some.injEq, Prod.mk.injEq] at h
    obtain ⟨ho, hst⟩ := h
    cases ho
  | case3 c2 rs acc a b e hc ih =>
    intro er st2 h
    simp only [lexStr, hc, if_true] at h
    have := ih er st2 h
    subst this
    simp only [List.length_cons]
    congr 2
    omega
  | case4 c2 rs acc a b e hc ih =>
    intro er st2 h
    simp only [lexStr, hc, if_false] at h
    have := ih er st2 h
    subst this
    simp only [List.length_cons]
    congr 2
    omega
  | case5 c rs acc a b e hq hb ih =>
    intro er st2 h
    simp only [lexStr] at h
    have := ih er st2 h
    subst this
    simp only [List.length_cons]
    congr 2
    omega

/-- The eight single-character token kinds of the scanner's first arms
(`+ - * / = ; ( )` in source order). -/
def singleCharKind (c : Char) : Option TokenKind :=
  if c = '+' then some .add
  else if c = '-' then some .sub
  else if c = '*' then some .mul
  else if c = '/' then some .div
  else if c = '=' then some .assign
  else if c = ';' then some .semi
  else if c = '(' then some .openParen
  else if c = ')' then some .closeParen
  else none

/-- src/parse.rs `enum ErrorKind` (parse errors; `Lex` wraps a lexer
error). -/
inductive ParseErrorKind where
  | expectedNumber
  | expectedOperator
  | expectedExpression
  | unexpectedEof
  | unterminatedExpression
  | lexWrap (e : LexError)
deriving DecidableEq, Repr

/-- src/parse.rs `struct Error { kind, span }`. -/
structure ParseError where
  kind : ParseErrorKind
  span : Span
deriving DecidableEq, Repr

/-- src/parse.rs `impl From<lex::Error> for Error`: wrap a lexer error,
keeping its span unchanged. -/
def wrapLex (e : LexError) : ParseError := ⟨.lexWrap e, e.span⟩

/-- src/parse.rs `enum BinaryOp`. -/
inductive BinaryOp where
  | sub
  | add
  | mul
  | div
  | assign
deriving DecidableEq, Repr

/-- src/parse.rs `BinaryOp::precedence`. -/
def BinaryOp.precedence : BinaryOp → Nat
  | .assign => 1
  | .sub | .add => 2
  | .mul | .div => 3

/-- src/parse.rs `enum Lit`. -/
inductive Lit where
  | num (n : Nat)
  | string (s : String)
deriving DecidableEq, Repr

/-- src/parse.rs expression tree. The Rust layering
`Expr { kind: ExprKind, span }` with `ExprKind::{Lit, Binary, Var, Call}`,
`BinaryExpr { left, op: WithSpan<BinaryOp>, right }` is flattened into one
constructor per `ExprKind` variant, each carrying the node span last:
`lit v vspan span` is `Expr { kind: Lit(WithSpan(v, vspan)), span }`,
`binary l op opSpan r span` is
`Expr { kind: Binary(BinaryExpr { left: l, op: WithSpan(op, opSpan), right: r }), span }`,
`var i span` is `Expr { kind: Var(i), span }`, and `call name args span` is
`Expr { kind: Call(Call { name, args }), span }`. The `Call` struct is
absent from the src/parse.rs snapshot; its two fields are exactly the ones
its consumer src/codegen.rs `Codegen::call` reads (`call.name`,
`call.args`). -/
inductive Expr where
  | lit (v : Lit) (vspan : Span) (span : Span)
  | binary (left : Expr) (op : BinaryOp) (opSpan : Span) (right : Expr) (span : Span)
  | var (i : Nat) (span : Span)
  | call (name : String) (args : List Expr) (span : Span)
deriving Repr

/-- The `span` field of an expression node. -/
def Expr.span : Expr → Span
  | .lit _ _ s => s
  | .binary _ _ _ _ s => s
  | .var _ s => s
  | .call _ _ s => s

/-- Whether the node is a plain variable reference (`ExprKind::Var`). -/
def Expr.isVar : Expr → Bool
  | .var _ _ => true
  | _ => false

/-- src/parse.rs `struct Ast { exprs, vars }`; a `Var` is just its name. -/
structure Ast where
  exprs : List Expr
  vars : List String
deriving Repr

/-- One item of the stream the parser draws from: `Result<Token, Error>`
as delivered by the token buffer. By `tokensDrain_filter` the buffer is
observationally the whitespace-filtered lexer stream, so the parser is
modelled over that stream as a list. -/
abbrev PTok := Except LexError Token

/-- Parser state: the remaining (whitespace-free) token stream and the
variable table `vars: Vec<Var>` of src/parse.rs `struct Parser`. -/
structure PSt where
  toks : List PTok
  vars : List String
deriving Repr

/-- src/parse.rs `Parser::primary`: end of input gives `Ok(None)`; a
numeric, string, or identifier token builds the literal/variable node
(looking the identifier up in the variable table by position, appending it
if unseen); anything else is `ExpectedExpression` at the token's span. -/
def primary (st : PSt) : Except ParseError (Option Expr × PSt) :=
  match st.toks with
  | [] => .ok (none, st)
  | .error e :: _ => .error (wrapLex e)
  | .ok t :: rest =>
    match t.kind with
    | .num n => .ok (some (.lit (.num n) t.span t.span), ⟨rest, st.vars⟩)
    | .str s => .ok (some (.lit (.string s) t.span t.span), ⟨rest, st.vars⟩)
    | .ident v =>
      match st.vars.findIdx? (fun n => n = v) with
      | some i => .ok (some (.var i t.span), ⟨rest, st.vars⟩)
      | none =>
        .ok (some (.var st.vars.length t.span), ⟨rest, st.vars ++ [v]⟩)
    | _ => .error ⟨.expectedExpression, t.span⟩

/-- Result of the operator dispatch in the loop of src/parse.rs
`Parser::expr`: a binary operator, the `Semi => return Ok(Some(expr))`
arm, or the `_ => Err(ExpectedOperator)` arm. -/
inductive OpLookup where
  | op (o : BinaryOp)
  | semiStop
  | notOp
deriving DecidableEq, Repr

/-- The `match token.kind` of the `Parser::expr` loop. -/
def opOfToken : TokenKind → OpLookup
  | .add => .op .add
  | .sub => .op .sub
  | .mul => .op .mul
  | .div => .op .div
  | .assign => .op .assign
  | .semi => .semiStop
  | _ => .notOp

mutual

/-- src/parse.rs `Parser::expr`: parse a primary expression, then enter
the operator loop. The `fuel` parameter only bounds recursion depth
(`none` = out of fuel); a fuel of twice the token count is always enough. -/
def exprFn : Nat → Nat → PSt → Option (Except ParseError (Option Expr × PSt))
  | 0, _, _ => none
  | fuel + 1, prec, st =>
    match primary st with
    | .error e => some (.error e)
    | .ok (none, st2) => some (.ok (none, st2))
    | .ok (some e, st2) => exprLoop fuel prec e st2

/-- The `loop` of src/parse.rs `Parser::expr`: peek the next token
(`None` and `Semi` return the expression built so far; a non-operator is
`ExpectedOperator`); an operator below the precedence threshold returns
the expression built so far without consuming; otherwise consume it,
parse the right-hand side with threshold `precedence + 1`, fold both
sides into a binary node spanning `left.span + right.span`, and continue. -/
def exprLoop : Nat → Nat → Expr → PSt → Option (Except ParseError (Option Expr × PSt))
  | 0, _, _, _ => none
  | fuel + 1, prec, e, st =>
    match st.toks with
    | [] => some (.ok (some e, st))
    | .error err :: _ => some (.error (wrapLex err))
    | .ok t :: rest =>
      match opOfToken t.kind with
      | .semiStop => some (.ok (some e, st))
      | .notOp => some (.error ⟨.expectedOperator, t.span⟩)
      | .op o =>
        if o.precedence < prec then some (.ok (some e, st))
        else
          match exprFn fuel (o.precedence + 1) ⟨rest, st.vars⟩ with
          | none => none
          | some (.error e2) => some (.error e2)
          | some (.ok (none, _)) => some (.error ⟨.unexpectedEof, Span.EOF⟩)
          | some (.ok (some right, st2)) =>
            exprLoop fuel prec
              (.binary e o t.span right (e.span + right.span)) st2

end

/-- src/parse.rs `Parser::parse`: a loop of `expr(0)` calls, each followed
by a mandatory semicolon (`UnterminatedExpression` otherwise, at the
offending token's span or the EOF sentinel); `expr` returning `None` ends
the program. `accu` carries the statements parsed so far. -/
def parseFn : Nat → PSt → List Expr → Option (Except ParseError Ast)
  | 0, _, _ => none
  | fuel + 1, st, accu =>
    match exprFn fuel 0 st with
    | none => none
    | some (.error e) => some (.error e)
    | some (.ok (none, st2)) => some (.ok ⟨accu, st2.vars⟩)
    | some (.ok (some e, st2)) =>
      match st2.toks with
      | .error e2 :: _ => some (.error (wrapLex e2))
      | .ok t :: rest =>
        match t.kind with
        | .semi => parseFn fuel ⟨rest, st2.vars⟩ (accu ++ [e])
        | _ => some (.error ⟨.unterminatedExpression, t.span⟩)
      | [] => some (.error ⟨.unterminatedExpression, Span.EOF⟩)

example : parseFn 20
    ⟨[.ok ⟨.num 2, ⟨0, 1⟩⟩, .ok ⟨.add, ⟨1, 2⟩⟩, .ok ⟨.num 3, ⟨2, 3⟩⟩,
      .ok ⟨.mul, ⟨3, 4⟩⟩, .ok ⟨.num 4, ⟨4, 5⟩⟩, .ok ⟨.semi, ⟨5, 6⟩⟩], []⟩ [] =
    some (.ok ⟨[.binary (.lit (.num 2) ⟨0, 1⟩ ⟨0, 1⟩) .add ⟨1, 2⟩
      (.binary (.lit (.num 3) ⟨2, 3⟩ ⟨2, 3⟩) .mul ⟨3, 4⟩
        (.lit (.num 4) ⟨4, 5⟩ ⟨4, 5⟩) ⟨2, 5⟩) ⟨0, 5⟩], []⟩) := rfl

example : parseFn 20
    ⟨[.ok ⟨.ident "a", ⟨0, 1⟩⟩, .ok ⟨.assign, ⟨1, 2⟩⟩,
      .ok ⟨.ident "b", ⟨2, 3⟩⟩, .ok ⟨.assign, ⟨3, 4⟩⟩,
      .ok ⟨.ident "c", ⟨4, 5⟩⟩, .ok ⟨.semi, ⟨5, 6⟩⟩], []⟩ [] =
    some (.ok ⟨[.binary
      (.binary (.var 0 ⟨0, 1⟩) .assign ⟨1, 2⟩ (.var 1 ⟨2, 3⟩) ⟨0, 3⟩)
      .assign ⟨3, 4⟩ (.var 2 ⟨4, 5⟩) ⟨0, 5⟩], ["a", "b", "c"]⟩) := rfl

/-- src/codegen.rs `enum ErrorKind`. -/
inductive CgErrorKind where
  | expectedIntExpr
  | expectedIdent
  | invalidOperator
deriving DecidableEq, Repr

/-- src/codegen.rs `struct Error { kind, span }`. -/
structure CgError where
  kind : CgErrorKind
  span : Span
deriving DecidableEq, Repr

/-- src/codegen.rs `Codegen::call`:
`const REGISTERS: [&str; 6] = ["rdi", "rsi", "rdx", "rcx", "r8", "r9"]`. -/
def REGISTERS : List String := ["rdi", "rsi", "rdx", "rcx", "r8", "r9"]

/-- Lookup of `REGISTERS[i]` (guarded by the caller's bound check,
mirroring the index panic for more than six arguments). -/
def regName (i : Nat) : String := REGISTERS.getD i ""

/-- The division lowering of src/codegen.rs `Codegen::binary_op`:
divisor to scratch, dividend back to the accumulator, zero the high half,
divide. -/
def divTail : List String :=
  ["mov %eax, %ebx\n\t", "pop %rax\n\t", "mov $0, %edx\n\t",
    "idiv %ebx\n\t"]

/-- The assignment arm of src/codegen.rs `Codegen::binary_op`, applied to
the already-emitted right-hand side: evaluate the right side, then store
the accumulator into the left side's slot; `ExpectedIdent` at
`expr.left.span` when the left side is not a variable reference. -/
def codegenAssign (l : Expr) (rres : Option (Except CgError (List String))) :
    Option (Except CgError (List String)) :=
  match rres with
  | none => none
  | some (.error e) => some (.error e)
  | some (.ok rl) =>
    match l with
    | .var i _ =>
      some (.ok (rl ++
        ["mov %eax, -" ++ toString ((i + 1) * 4) ++ "(%rbp)\n\t"]))
    | _ => some (.error ⟨.expectedIdent, l.span⟩)

/-- The arithmetic arms of `Codegen::binary_op`, applied to the
already-emitted operands: left into the accumulator, push, right into the
accumulator, then either the division tail or pop-to-scratch plus the
operator instruction. The left side's error (if any) surfaces first, as in
the source's evaluation order. -/
def codegenArithRes (lres rres : Option (Except CgError (List String)))
    (opStr : String) (isDiv : Bool) :
    Option (Except CgError (List String)) :=
  match lres with
  | none => none
  | some (.error e) => some (.error e)
  | some (.ok ll) =>
    match rres with
    | none => none
    | some (.error e) => some (.error e)
    | some (.ok rl) =>
      some (.ok (ll ++ ["push %rax\n\t"] ++ rl ++
        (if isDiv then divTail
          else ["pop %rbx\n\t", opStr ++ " %ebx, %eax\n\t"])))

/-- The register save / argument pop / call / restore line sequence of
`Codegen::call`, around the already-emitted argument pushes. -/
def callLines (name : String) (n : Nat) (argLines : List String) :
    List String :=
  ((List.range n).drop 1).map (fun i => "push %" ++ regName i ++ "\n\t")
  ++ argLines
  ++ (List.range n).map (fun i => "pop %" ++ regName i ++ "\n\t")
  ++ ["mov $0, %eax\n\t", "call " ++ name ++ "\n\t"]
  ++ ((List.range n).drop 1).map (fun i => "pop %" ++ regName i ++ "\n\t")

mutual

/-- src/codegen.rs `Codegen::expr`/`Codegen::binary_op`/`Codegen::call`
combined, emitting the list of `asm!` chunks. Result `none` models a Rust
panic: the `unimplemented!()` on string literals and the `REGISTERS[i]`
index panic on calls with more than six arguments. The defensive
`_ => Err(InvalidOperator)` arm of `binary_op` is unreachable (every
non-assign operator has a mnemonic) and has no counterpart here. -/
def codegenExpr : Expr → Option (Except CgError (List String))
  | .lit (.num n) _ _ =>
    some (.ok ["mov $" ++ toString n ++ ", %eax\n\t"])
  | .lit (.string _) _ _ => none
  | .var i _ =>
    some (.ok ["mov -" ++ toString ((i + 1) * 4) ++ "(%rbp), %eax\n\t"])
  | .binary l op _ r _ =>
    match op with
    | .assign => codegenAssign l (codegenExpr r)
    | .sub => codegenArithRes (codegenExpr l) (codegenExpr r) "sub" false
    | .add => codegenArithRes (codegenExpr l) (codegenExpr r) "add" false
    | .mul => codegenArithRes (codegenExpr l) (codegenExpr r) "imul" false
    | .div => codegenArithRes (codegenExpr l) (codegenExpr r) "idiv" true
  | .call name args _ =>
    -- `Codegen::call`: save REGISTERS[1..n], evaluate and push each
    -- argument left to right, pop REGISTERS[0..n] in that order, clear
    -- the accumulator, call, pop REGISTERS[1..n] in that order.
    if 6 < args.length then none
    else
      match codegenArgs args with
      | none => none
      | some (.error e) => some (.error e)
      | some (.ok argLines) =>
        some (.ok (callLines name args.length argLines))

/-- The argument loop of `Codegen::call`: evaluate each argument and push
the accumulator, in left-to-right order. -/
def codegenArgs : List Expr → Option (Except CgError (List String))
  | [] => some (.ok [])
  | a :: rest =>
    match codegenExpr a with
    | none => none
    | some (.error e) => some (.error e)
    | some (.ok la) =>
      match codegenArgs rest with
      | none => none
      | some (.error e) => some (.error e)
      | some (.ok lr) => some (.ok (la ++ ["push %rax\n\t"] ++ lr))

end

example : codegenExpr (.lit (.num 7) ⟨0, 1⟩ ⟨0, 1⟩) =
    some (.ok ["mov $7, %eax\n\t"]) := rfl

example : codegenExpr (.binary (.lit (.num 7) ⟨0, 1⟩ ⟨0, 1⟩) .div ⟨1, 2⟩
      (.lit (.num 2) ⟨2, 3⟩ ⟨2, 3⟩) ⟨0, 3⟩) =
    some (.ok ["mov $7, %eax\n\t", "push %rax\n\t", "mov $2, %eax\n\t",
      "mov %eax, %ebx\n\t", "pop %rax\n\t", "mov $0, %edx\n\t",
      "idiv %ebx\n\t"]) := rfl

/-! Supporting definitions for the claim theorems. -/

/-- Keep-predicate of the whitespace filter (`!isWsOut`). -/
def nonWs (o : LexOut) : Bool := !isWsOut o

/-- An `a = (b = c)` shape: root assignment whose left side is a plain
variable and whose right side is again an assignment. -/
def isRightNestedAssign : Expr → Bool
  | .binary (.var _ _) .assign _ (.binary _ .assign _ _ _) _ => true
  | _ => false

/-- An `(a = b) = c` shape: root assignment whose left side is again an
assignment and whose right side is a plain variable. -/
def isLeftNestedAssign : Expr → Bool
  | .binary (.binary _ .assign _ _ _) .assign _ (.var _ _) _ => true
  | _ => false

/-- Token stream of `"a=b=c;"` (whitespace-free). -/
def toksAssignChain : List PTok :=
  [.ok ⟨.ident "a", ⟨0, 1⟩⟩, .ok ⟨.assign, ⟨1, 2⟩⟩,
    .ok ⟨.ident "b", ⟨2, 3⟩⟩, .ok ⟨.assign, ⟨3, 4⟩⟩,
    .ok ⟨.ident "c", ⟨4, 5⟩⟩, .ok ⟨.semi, ⟨5, 6⟩⟩]

/-- The tree the parser builds for `"a=b=c;"`: `(a = b) = c`. -/
def assignChainTree : Expr :=
  .binary (.binary (.var 0 ⟨0, 1⟩) .assign ⟨1, 2⟩ (.var 1 ⟨2, 3⟩) ⟨0, 3⟩)
    .assign ⟨3, 4⟩ (.var 2 ⟨4, 5⟩) ⟨0, 5⟩

/-- Token stream of `"1+2=3;"` (whitespace-free). -/
def toksBadAssign : List PTok :=
  [.ok ⟨.num 1, ⟨0, 1⟩⟩, .ok ⟨.add, ⟨1, 2⟩⟩, .ok ⟨.num 2, ⟨2, 3⟩⟩,
    .ok ⟨.assign, ⟨3, 4⟩⟩, .ok ⟨.num 3, ⟨4, 5⟩⟩, .ok ⟨.semi, ⟨5, 6⟩⟩]

/-- The left-hand side `1+2` of `"1+2=3;"` as parsed. -/
def badAssignLhs : Expr :=
  .binary (.lit (.num 1) ⟨0, 1⟩ ⟨0, 1⟩) .add ⟨1, 2⟩
    (.lit (.num 2) ⟨2, 3⟩ ⟨2, 3⟩) ⟨0, 3⟩

/-- The full tree of `"1+2=3;"` as parsed: `(1+2) = 3`. -/
def badAssignTree : Expr :=
  .binary badAssignLhs .assign ⟨3, 4⟩ (.lit (.num 3) ⟨4, 5⟩ ⟨4, 5⟩) ⟨0, 5⟩

/-- A call `printf(1, 2)` as the code generator receives it. -/
def twoArgCall : Expr :=
  .call "printf" [.lit (.num 1) ⟨0, 1⟩ ⟨0, 1⟩, .lit (.num 2) ⟨2, 3⟩ ⟨2, 3⟩]
    ⟨0, 3⟩

/-! The claim theorems. -/

/-- C1: whenever the next unconsumed character is one of the eight
single-character token characters `+ - * / = ; ( )`, `Lexer::next` scans
it as the corresponding one-character token (with the one-character span
at the cursor) — in particular it never reports it as an
invalid-character error. -/
theorem c1_single_char_tokens (st : LexState) (c : Char) (k : TokenKind)
    (rs : List Char) (hr : st.rest = c :: rs)
    (hk : singleCharKind c = some k) :
    rawNext st = some (.tok ⟨k, ⟨st.stop, st.stop + 1⟩⟩,
      ⟨rs, st.stop, st.stop + 1, st.eof || rs.isEmpty⟩) := by
  rw [rawNext]
  simp only [hr]
  by_cases h1 : c = '+'
  · subst h1
    rw [show singleCharKind '+' = some TokenKind.add from rfl] at hk
    injection hk with hk2
    subst hk2
    simp [finishTok]
  rw [if_neg h1]
  by_cases h2 : c = '-'
  · subst h2
    rw [show singleCharKind '-' = some TokenKind.sub from rfl] at hk
    injection hk with hk2
    subst hk2
    simp [finishTok]
  rw [if_neg h2]
  by_cases h3 : c = '*'
  · subst h3
    rw [show singleCharKind '*' = some TokenKind.mul from rfl] at hk
    injection hk with hk2
    subst hk2
    simp [finishTok]
  rw [if_neg h3]
  by_cases h4 : c = '/'
  · subst h4
    rw [show singleCharKind '/' = some TokenKind.div from rfl] at hk
    injection hk with hk2
    subst hk2
    simp [finishTok]
  rw [if_neg h4]
  by_cases h5 : c = '='
  · subst h5
    rw [show singleCharKind '=' = some TokenKind.assign from rfl] at hk
    injection hk with hk2
    subst hk2
    simp [finishTok]
  rw [if_neg h5]
  by_cases h6 : c = ';'
  · subst h6
    rw [show singleCharKind ';' = some TokenKind.semi from rfl] at hk
    injection hk with hk2
    subst hk2
    simp [finishTok]
  rw [if_neg h6]
  by_cases h7 : c = '('
  · subst h7
    rw [show singleCharKind '(' = some TokenKind.openParen from rfl] at hk
    injection hk with hk2
    subst hk2
    simp [finishTok]
  rw [if_neg h7]
  by_cases h8 : c = ')'
  · subst h8
    rw [show singleCharKind ')' = some TokenKind.closeParen from rfl] at hk
    injection hk with hk2
    subst hk2
    simp [finishTok]
  simp only [singleCharKind, h1, h2, h3, h4, h5, h6, h7, h8,
    if_false] at hk
  exact Option.noConfusion hk

theorem c1_single_char_tokens_witness :
    rawNext (lexInit ['*']) =
      some (.tok ⟨.mul, ⟨0, 1⟩⟩, ⟨[], 0, 1, true⟩) ∧
    rawNext (lexInit [';']) =
      some (.tok ⟨.semi, ⟨0, 1⟩⟩, ⟨[], 0, 1, true⟩) :=
  ⟨c1_single_char_tokens (lexInit ['*']) '*' .mul [] rfl rfl,
    c1_single_char_tokens (lexInit [';']) ';' .semi [] rfl rfl⟩

/-- C2: one step of the `Parser::expr` loop at minimum precedence `prec`,
with a binary-operator token `t` (operator `o`) next: if `o`'s precedence
is below `prec` the loop returns the expression built so far without
consuming `t`; otherwise it consumes `t`, parses the right-hand side with
threshold `o.precedence + 1`, folds both sides into a binary node whose
span runs from the left operand's start to the right operand's end
(`left.span + right.span`), and continues the loop. -/
theorem c2_expr_precedence_step (fuel prec : Nat) (e : Expr) (t : Token)
    (o : BinaryOp) (rest : List PTok) (vars : List String)
    (ho : opOfToken t.kind = .op o) :
    (o.precedence < prec →
      exprLoop (fuel + 1) prec e ⟨.ok t :: rest, vars⟩ =
        some (.ok (some e, ⟨.ok t :: rest, vars⟩))) ∧
    (prec ≤ o.precedence →
      exprLoop (fuel + 1) prec e ⟨.ok t :: rest, vars⟩ =
        match exprFn fuel (o.precedence + 1) ⟨rest, vars⟩ with
        | none => none
        | some (.error e2) => some (.error e2)
        | some (.ok (none, _)) => some (.error ⟨.unexpectedEof, Span.EOF⟩)
        | some (.ok (some right, st2)) =>
          exprLoop fuel prec
            (.binary e o t.span right ⟨e.span.start, right.span.stop⟩)
            st2) := by
  constructor
  · intro hlt
    rw [exprLoop]
    simp only [ho]
    rw [if_pos hlt]
  · intro hge
    rw [exprLoop]
    simp only [ho]
    rw [if_neg (Nat.not_lt.mpr hge)]
    rfl

theorem c2_expr_precedence_step_witness :
    exprLoop 4 3 (.lit (.num 1) ⟨0, 1⟩ ⟨0, 1⟩)
        ⟨[.ok ⟨.add, ⟨1, 2⟩⟩], []⟩ =
      some (.ok (some (.lit (.num 1) ⟨0, 1⟩ ⟨0, 1⟩),
        ⟨[.ok ⟨.add, ⟨1, 2⟩⟩], []⟩)) :=
  (c2_expr_precedence_step 3 3 (.lit (.num 1) ⟨0, 1⟩ ⟨0, 1⟩)
    ⟨.add, ⟨1, 2⟩⟩ .add [] [] rfl).1 (by decide)

/-- C3 counterexample: for the chained assignment `a = b = c;` the parser
does not build the right-nested tree `a = (b = c)` the claim states — the
statement's single expression is the left-nested tree `(a = b) = c`. -/
theorem c3_counterexample_left_nested :
    parseFn 16 ⟨toksAssignChain, []⟩ [] =
      some (.ok ⟨[assignChainTree], ["a", "b", "c"]⟩) ∧
    isRightNestedAssign assignChainTree = false := ⟨rfl, rfl⟩

/-- C3 (amended): assignment is parsed by the generic binary-operator loop
with right-hand threshold `precedence + 1`, so chained `=` nests to the
left: `a = b = c;` parses as `(a = b) = c`, with precedences assign = 1,
add/subtract = 2, multiply/divide = 3. -/
theorem c3_assign_left_nested :
    parseFn 16 ⟨toksAssignChain, []⟩ [] =
      some (.ok ⟨[assignChainTree], ["a", "b", "c"]⟩) ∧
    isLeftNestedAssign assignChainTree = true ∧
    BinaryOp.precedence .assign = 1 ∧
    BinaryOp.precedence .add = 2 ∧ BinaryOp.precedence .sub = 2 ∧
    BinaryOp.precedence .mul = 3 ∧ BinaryOp.precedence .div = 3 :=
  ⟨rfl, rfl, rfl, rfl, rfl, rfl, rfl⟩

/-- C4 at the failing input: for the two-argument call `printf(1, 2)` the
emitted sequence pushes the argument values left to right and then pops
`%rdi` first, so `%rdi` receives the value of the second argument (2) and
`%rsi` the first (1) — not the left-to-right register assignment the claim
states. The save/restore of `%rsi` and the accumulator clear are emitted
as claimed. -/
theorem c4_call_marshalling_at_failing_input :
    codegenExpr twoArgCall = some (.ok
      ["push %rsi\n\t",
        "mov $1, %eax\n\t", "push %rax\n\t",
        "mov $2, %eax\n\t", "push %rax\n\t",
        "pop %rdi\n\t", "pop %rsi\n\t",
        "mov $0, %eax\n\t", "call printf\n\t",
        "pop %rsi\n\t"]) := rfl

/-- C5: the parser accepts an assignment whose left-hand side is not a
plain variable reference — it builds the binary assign node without
validating the left side (shown for `1+2=3;`, whose parse succeeds) — and
code generation of such an assignment fails with `ExpectedIdent` spanned
at the left-hand side, for every non-variable left side whose right side
compiles. -/
theorem c5_assign_target_validated_in_codegen (l r : Expr)
    (opSpan sp : Span) (rl : List String)
    (hl : l.isVar = false) (hr : codegenExpr r = some (.ok rl)) :
    codegenExpr (.binary l .assign opSpan r sp) =
      some (.error ⟨.expectedIdent, l.span⟩) ∧
    parseFn 16 ⟨toksBadAssign, []⟩ [] =
      some (.ok ⟨[badAssignTree], []⟩) := by
  constructor
  · match l with
    | .var i s => simp [Expr.isVar] at hl
    | .lit v vs s => rw [codegenExpr]; simp only [hr]; rfl
    | .binary l2 op2 os2 r2 s => rw [codegenExpr]; simp only [hr]; rfl
    | .call n as s => rw [codegenExpr]; simp only [hr]; rfl
  · rfl

theorem c5_assign_target_validated_in_codegen_witness :
    codegenExpr badAssignTree =
      some (.error ⟨.expectedIdent, ⟨0, 3⟩⟩) ∧
    parseFn 16 ⟨toksBadAssign, []⟩ [] =
      some (.ok ⟨[badAssignTree], []⟩) :=
  c5_assign_target_validated_in_codegen badAssignLhs
    (.lit (.num 3) ⟨4, 5⟩ ⟨4, 5⟩) ⟨3, 4⟩ ⟨0, 5⟩
    ["mov $3, %eax\n\t"] rfl rfl

/-- C6: draining the token buffer yields exactly the raw lexer stream with
the whitespace tokens deleted (errors pass through unchanged as items of
that stream); consequently, from any state whose lookahead slot does not
hold a whitespace token — as in every reachable state — neither
`Tokens::peek` nor `Tokens::next` ever yields a whitespace token. -/
theorem c6_token_buffer_filters_whitespace (src : List Char)
    (ts : TokState)
    (hclean : ∀ o, ts.peeked = some (some o) → isWsOut o = false) :
    tokensDrain ⟨lexInit src, none⟩ =
      (rawDrain (lexInit src)).filter nonWs ∧
    (∀ o, (toksPeek ts).1 = some o → isWsOut o = false) ∧
    (∀ o, (toksNext ts).1 = some o → isWsOut o = false) := by
  refine ⟨?_, ?_, ?_⟩
  · have h := tokensDrain_filter (lexInit src).rest.length (lexInit src)
      (Nat.le_refl _)
    rw [h]
    rfl
  · intro o hpk
    rw [toksPeek] at hpk
    match hv : ts.peeked with
    | some v =>
      rw [hv] at hpk
      simp only at hpk
      subst hpk
      exact hclean o hv
    | none =>
      rw [hv] at hpk
      simp only at hpk
      match hp : pullSkip ts.lex with
      | (some o2, lex2) =>
        rw [hp] at hpk
        simp only at hpk
        injection hpk with hpk2
        subst hpk2
        exact (pullSkip_some ts.lex o2 lex2 hp).2
      | (none, lex2) => rw [hp] at hpk; cases hpk
  · intro o hnx
    rw [toksNext] at hnx
    match hv : ts.peeked with
    | some (some o2) =>
      rw [hv] at hnx
      simp only at hnx
      by_cases hw : isWsOut o2
      · rw [if_pos hw] at hnx
        match hp : pullSkip ts.lex with
        | (some o3, lex2) =>
          rw [hp] at hnx
          simp only at hnx
          injection hnx with hnx2
          subst hnx2
          exact (pullSkip_some ts.lex o3 lex2 hp).2
        | (none, lex2) => rw [hp] at hnx; cases hnx
      · rw [if_neg hw] at hnx
        simp only at hnx
        injection hnx with hnx2
        subst hnx2
        simpa using hw
    | some none => rw [hv] at hnx; cases hnx
    | none =>
      rw [hv] at hnx
      simp only at hnx
      match hp : pullSkip ts.lex with
      | (some o3, lex2) =>
        rw [hp] at hnx
        simp only at hnx
        injection hnx with hnx2
        subst hnx2
        exact (pullSkip_some ts.lex o3 lex2 hp).2
      | (none, lex2) => rw [hp] at hnx; cases hnx

theorem c6_token_buffer_filters_whitespace_witness :
    tokensDrain ⟨lexInit ['1', ' ', '+'], none⟩ =
      (rawDrain (lexInit ['1', ' ', '+'])).filter nonWs :=
  (c6_token_buffer_filters_whitespace ['1', ' ', '+']
    ⟨lexInit [], none⟩ (fun o h => nomatch h)).1

/-- C7 at the failing input: lexing the unterminated string literal
`"é` (a quote followed by the two-byte character U+00E9) produces an
unexpected-EOF error whose span is `{0, 2}` — the lexer advances the span
end by one per character, not per UTF-8 byte — and byte offset 2 is not a
character boundary of the three-byte source (its boundaries are 0, 1, 3),
so the span does not delimit the consumed source text. -/
theorem c7_span_not_byte_offsets_at_failing_input :
    rawNext (lexInit ['"', 'é']) =
      some (.err ⟨.unexpectedEof, ⟨0, 2⟩⟩, ⟨[], 0, 2, true⟩) ∧
    utf8IsBoundary ['"', 'é'] 2 = false ∧
    utf8Len ['"', 'é'] = 3 := by
  refine ⟨rfl, by decide, by decide⟩

/-- C8: when `Lexer::next` starts at a `"` and reports an error, that
error is an unexpected-end-of-input error whose span starts at the byte
offset of the opening quote (the cursor position where scanning of the
literal started) and ends after the whole remaining input. -/
theorem c8_unterminated_string_error (st : LexState) (rs : List Char)
    (er : LexError) (st2 : LexState) (hr : st.rest = '"' :: rs)
    (h : rawNext st = some (.err er, st2)) :
    er.kind = .unexpectedEof ∧ er.span.start = st.stop := by
  rw [rawNext] at h
  simp only [hr] at h
  rw [if_neg (by decide), if_neg (by decide), if_neg (by decide),
    if_neg (by decide), if_neg (by decide), if_neg (by decide),
    if_neg (by decide), if_neg (by decide), if_neg (by decide),
    if_neg (by decide), if_pos (by decide)] at h
  have := lexStr_err rs [] st.stop (st.stop + 1) st.eof er st2 h
  subst this
  exact ⟨rfl, rfl⟩

theorem c8_unterminated_string_error_witness :
    (⟨.unexpectedEof, ⟨0, 4⟩⟩ : LexError).kind = .unexpectedEof ∧
    (⟨.unexpectedEof, ⟨0, 4⟩⟩ : LexError).span.start = 0 :=
  c8_unterminated_string_error (lexInit ['"', 'a', 'b', 'c'])
    ['a', 'b', 'c'] ⟨.unexpectedEof, ⟨0, 4⟩⟩ ⟨[], 0, 4, true⟩ rfl rfl

/-- C9: for every source text, the consumed lexer stream is finite — at
most one item per source character — ending either when input is
exhausted or at the first error; and no produced item's span end exceeds
the byte length of the source. -/
theorem c9_lexer_terminates_spans_bounded (src : List Char) :
    (∀ o ∈ lexTokens (lexInit src), outStop o ≤ utf8Len src) ∧
    (lexTokens (lexInit src)).length ≤ src.length := by
  obtain ⟨h1, h2⟩ := lexTokens_inv src.length (lexInit src) (Nat.le_refl _)
  refine ⟨?_, h2⟩
  intro o ho
  have hb := h1 o ho
  have hle := length_le_utf8Len src
  simp only [lexInit] at hb
  omega

theorem c9_lexer_terminates_spans_bounded_witness :
    outStop (LexOut.tok ⟨.num 1, ⟨0, 1⟩⟩) ≤ utf8Len ['1', '+'] ∧
    (lexTokens (lexInit ['1', '+'])).length ≤ 2 := by
  constructor
  · refine (c9_lexer_terminates_spans_bounded ['1', '+']).1
      (LexOut.tok ⟨.num 1, ⟨0, 1⟩⟩) ?_
    rw [lexTokens_tok (show rawNext (lexInit ['1', '+']) =
      some (.tok ⟨.num 1, ⟨0, 1⟩⟩, ⟨['+'], 0, 1, false⟩) from rfl)]
    exact List.mem_cons_self _ _
  · exact (c9_lexer_terminates_spans_bounded ['1', '+']).2

/-- C10: there is a source text — twenty `9` digits, whose value exceeds
`usize::MAX` — on which `Lexer::next` panics (the `unwrap` on
`slice().parse()` fails) instead of returning a token or a lexical
error. -/
theorem c10_numeric_overflow_panics :
    rawNext (lexInit (List.replicate 20 '9')) =
      some (.panicOut, ⟨[], 0, 20, false⟩) ∧
    usizeMax < digitsToNat (List.replicate 20 '9') := by
  refine ⟨by decide, by decide⟩
